import Mathlib

/-!
Verification development for the triton language code generator
(`include/triton/lang/code_gen.h`: the `Generator` / `LValAssigner` pair)
and for the `next_power_of_2` helper of the fused-softmax tutorial
(`python/tutorials/02-fused-softmax.ipynb`).

The header provides inline the two error helpers, the sixteen
`LValAssigner` rejection handlers with their exact messages, and
`LValAssigner::GenExpr`; those are translated here verbatim.  The bodies
of the remaining `Generator`/`LValAssigner` methods live in a translation
unit that is not part of the sources, so they are modelled from the
specification where a claim needs them; each such definition carries a
doc comment starting with `Modelled from the spec:`.

The IR builder is modelled as an append-only instruction trace plus a
fresh-value counter: every lowering function returns the list of
instructions it emitted (in emission order) together with the updated
counter, and an `Except` result.  A raised error carries whatever was
emitted before the abort, matching in-place module mutation plus a thrown
C++ exception.
-/

/-- Opaque stand-in for `ir::type*` handles. -/
abbrev IRType := Nat

/-- An IR value: a fresh numeric id plus its tile shape (`[]` = scalar). -/
structure Val where
  id : Nat
  shape : List Nat
deriving Repr, DecidableEq

/-- The single error object both error helpers construct
(`std::runtime_error` carrying only a message string). -/
structure RuntimeError where
  what : String
deriving Repr, DecidableEq

/-- Translated from `code_gen.h` line 36: internal compiler errors
prepend a fixed prefix to the given suffix. -/
def should_not_happen (suffix : String) : RuntimeError :=
  ⟨"internal compiler error: " ++ suffix⟩

/-- Translated from `code_gen.h` line 37: not-yet-implemented errors
raise the message verbatim. -/
def error_not_implemented (msg : String) : RuntimeError :=
  ⟨msg⟩

/-- The `Generator::scope` struct (`code_gen.h` lines 44-47): two independent maps,
one from names to IR types and one from names to IR values.  `std::map`
insertion is modelled by consing onto an association list, lookup by
first match. -/
structure scope where
  types : List (String × IRType)
  values : List (String × Val)
deriving Repr, DecidableEq

def scope.lookupType (s : scope) (n : String) : Option IRType :=
  (s.types.find? (fun p => p.1 == n)).map (fun p => p.2)

def scope.lookupValue (s : scope) (n : String) : Option Val :=
  (s.values.find? (fun p => p.1 == n)).map (fun p => p.2)

def scope.bindType (s : scope) (n : String) (t : IRType) : scope :=
  { s with types := (n, t) :: s.types }

def scope.bindValue (s : scope) (n : String) (v : Val) : scope :=
  { s with values := (n, v) :: s.values }

def emptyScope : scope := ⟨[], []⟩

/-- Scope-chain lookup: walk outward through enclosing scopes. -/
def lookupValueChain : List scope → String → Option Val
  | [], _ => none
  | s :: rest, n =>
    match s.lookupValue n with
    | some v => some v
    | none => lookupValueChain rest n

/-- Binary operator kinds of the AST relevant to the generator: the
assignment family, member/index access, and representative arithmetic. -/
inductive BinKind where
  | Assign
  | Member
  | Index
  | Add
  | Sub
deriving Repr, DecidableEq

/-- Unary operator kinds: minus, dereference, and the four
increment/decrement forms. -/
inductive UnaryKind where
  | Minus
  | Deref
  | PrefixInc
  | PrefixDec
  | PostfixInc
  | PostfixDec
deriving Repr, DecidableEq

def UnaryKind.isInc : UnaryKind → Bool
  | .PrefixInc | .PostfixInc => true
  | _ => false

def UnaryKind.isPost : UnaryKind → Bool
  | .PostfixInc | .PostfixDec => true
  | _ => false

def UnaryKind.isIncDec : UnaryKind → Bool
  | .PrefixInc | .PrefixDec | .PostfixInc | .PostfixDec => true
  | _ => false

/-- The closed AST variant set of `visitor.h`/`ast.h` as dispatched on by
the `Visit*` methods of `code_gen.h` (expression kinds first, then
statement kinds).  Payloads are the children the generator recurses
into. -/
inductive ASTNode where
  | BinaryOp (op : BinKind) (lhs rhs : ASTNode)
  | UnaryOp (op : UnaryKind) (operand : ASTNode)
  | TransOp (operand : ASTNode)
  | ConditionalOp (cond onTrue onFalse : ASTNode)
  | FuncCall (callee : String)
  | Object (name : String)
  | Enumerator (name : String)
  | Identifier (name : String)
  | Constant (v : Int)
  | TempVar (n : Nat)
  | Declaration (name : String)
  | EmptyStmt
  | IfStmt
  | ForStmt
  | JumpStmt
  | ReturnStmt (e : ASTNode)
  | LabelStmt
  | CompoundStmt (body : List ASTNode)
  | FuncDef (name : String) (body : ASTNode)
  | TranslationUnit (decls : List ASTNode)

/-- Instructions of the modelled IR module.  `dst` is the id of the value
an instruction produces; `store` produces none. -/
inductive Instr where
  | constant (dst : Nat) (v : Int)
  | load (dst : Nat) (ptr : Nat)
  | store (ptr : Nat) (v : Nat)
  | binary (dst : Nat) (op : BinKind) (a b : Nat)
  | broadcast (dst : Nat) (src : Nat) (shape : List Nat)
  | gep (dst : Nat) (base idx : Nat)
  | trans (dst : Nat) (src : Nat)
  | select (dst : Nat) (cond a b : Nat)
deriving Repr, DecidableEq

def Instr.isLoad : Instr → Bool
  | .load _ _ => true
  | _ => false

def Instr.isStore : Instr → Bool
  | .store _ _ => true
  | _ => false

def Instr.isBroadcast : Instr → Bool
  | .broadcast _ _ _ => true
  | _ => false

/-- Result of lowering one expression: the produced value (or the raised
error), the updated fresh-id counter, and the instructions emitted, in
emission order. -/
abbrev Res := Except RuntimeError Val × Nat × List Instr

/-- Dispatch mode of a single visitor pass over one node:
`rval` is `Generator::VisitExpr`, `lval rhs` is the `LValAssigner` visit
with `rhs_ = rhs`, and `addr` resolves the storage location of an lvalue
without storing (used by increment/decrement). -/
inductive Mode where
  | rval
  | lval (rhs : Val)
  | addr

def shapeSize (s : List Nat) : Nat := s.foldr (fun a b => a * b) 1

/-- Modelled from the spec: the operand of smaller rank (or, at equal
rank, smaller element count) is the one broadcast to the other operand's
shape (spec 4.1 and 8; `Generator::GenBroadcastOp` body is not under the
sources). -/
def smallerShape (a b : List Nat) : Bool :=
  a.length < b.length || (a.length == b.length && shapeSize a < shapeSize b)

/-- Modelled from the spec: `Generator::GenBroadcastOp` (declaration only
in `code_gen.h` line 96) emits one broadcast instruction producing a
fresh value of the destination shape. -/
def GenBroadcastOp (src : Val) (dst_shape : List Nat) (cnt : Nat) :
    Val × Nat × List Instr :=
  (⟨cnt, dst_shape⟩, cnt + 1, [.broadcast cnt src.id dst_shape])

/-- Modelled from the spec: shape reconciliation before a binary
instruction (spec 4.1): equal shapes emit the binary instruction alone;
otherwise the smaller operand is broadcast first via `GenBroadcastOp`;
shapes where neither side is smaller are a compile error. -/
def GenBinaryReconciled (op : BinKind) (a b : Val) (cnt : Nat) : Res :=
  if a.shape = b.shape then
    (.ok ⟨cnt, a.shape⟩, cnt + 1, [.binary cnt op a.id b.id])
  else if smallerShape a.shape b.shape then
    let r := GenBroadcastOp a b.shape cnt
    (.ok ⟨r.2.1, b.shape⟩, r.2.1 + 1, r.2.2 ++ [.binary r.2.1 op r.1.id b.id])
  else if smallerShape b.shape a.shape then
    let r := GenBroadcastOp b a.shape cnt
    (.ok ⟨r.2.1, a.shape⟩, r.2.1 + 1, r.2.2 ++ [.binary r.2.1 op a.id r.1.id])
  else
    (.error (should_not_happen "incompatible tile shapes in binary op"), cnt, [])

/-- Modelled from the spec: the ternary operator lowers to a select-style
instruction with the same shape reconciliation rule as binary operators
(spec 4.1, `Generator::VisitConditionalOp` body is not under the
sources). -/
def GenSelectReconciled (cond a b : Val) (cnt : Nat) : Res :=
  if a.shape = b.shape then
    (.ok ⟨cnt, a.shape⟩, cnt + 1, [.select cnt cond.id a.id b.id])
  else if smallerShape a.shape b.shape then
    let r := GenBroadcastOp a b.shape cnt
    (.ok ⟨r.2.1, b.shape⟩, r.2.1 + 1, r.2.2 ++ [.select r.2.1 cond.id r.1.id b.id])
  else if smallerShape b.shape a.shape then
    let r := GenBroadcastOp b a.shape cnt
    (.ok ⟨r.2.1, a.shape⟩, r.2.1 + 1, r.2.2 ++ [.select r.2.1 cond.id a.id r.1.id])
  else
    (.error (should_not_happen "incompatible tile shapes in conditional op"), cnt, [])

/-- One visitor dispatch over one AST node, by mode.

For `Mode.lval` this is the `LValAssigner` visit: the sixteen rejection
handlers are translated verbatim from `code_gen.h` lines 138-153 (each
raises `should_not_happen` with a message naming the construct, and emits
nothing); the four accepted handlers (`VisitIdentifier`, `VisitObject`,
`VisitUnaryOp` restricted to dereference, `VisitBinaryOp` restricted to
member/index access) are modelled from the spec (spec 4.3): resolve the
storage location, emit one store of the provided value, and return that
value.

For `Mode.rval` this models `Generator::VisitExpr` dispatch from the
spec (spec 4.1); node kinds no claim exercises (function calls,
enumerators, temporaries) abort via `error_not_implemented` as a
modelling boundary, and statement kinds in expression position are an
internal error.

For `Mode.addr` it resolves the storage location of an lvalue without
storing; this is the address half of the increment/decrement protocol
(spec 4.1). -/
def gen : ASTNode → Mode → List scope → Nat → Res
  | .BinaryOp op l r, mode, env, cnt =>
    match mode with
    | .lval rhs =>
      match op with
      | .Member | .Index =>
        match gen l .rval env cnt with
        | (.error er, c1, t1) => (.error er, c1, t1)
        | (.ok vb, c1, t1) =>
          match gen r .rval env c1 with
          | (.error er, c2, t2) => (.error er, c2, t1 ++ t2)
          | (.ok vi, c2, t2) =>
            (.ok rhs, c2 + 1, t1 ++ t2 ++ [.gep c2 vb.id vi.id, .store c2 rhs.id])
      | _ => (.error (should_not_happen "binary operator cannot be lvalue"), cnt, [])
    | .addr =>
      match op with
      | .Member | .Index =>
        match gen l .rval env cnt with
        | (.error er, c1, t1) => (.error er, c1, t1)
        | (.ok vb, c1, t1) =>
          match gen r .rval env c1 with
          | (.error er, c2, t2) => (.error er, c2, t1 ++ t2)
          | (.ok vi, c2, t2) =>
            (.ok ⟨c2, []⟩, c2 + 1, t1 ++ t2 ++ [.gep c2 vb.id vi.id])
      | _ => (.error (should_not_happen "expression is not an lvalue"), cnt, [])
    | .rval =>
      match op with
      | .Assign =>
        match gen r .rval env cnt with
        | (.error er, c1, t1) => (.error er, c1, t1)
        | (.ok v, c1, t1) =>
          match gen l (.lval v) env c1 with
          | (res, c2, t2) => (res, c2, t1 ++ t2)
      | .Member | .Index =>
        match gen l .rval env cnt with
        | (.error er, c1, t1) => (.error er, c1, t1)
        | (.ok vb, c1, t1) =>
          match gen r .rval env c1 with
          | (.error er, c2, t2) => (.error er, c2, t1 ++ t2)
          | (.ok vi, c2, t2) =>
            (.ok ⟨c2 + 1, []⟩, c2 + 2, t1 ++ t2 ++ [.gep c2 vb.id vi.id, .load (c2 + 1) c2])
      | .Add | .Sub =>
        match gen l .rval env cnt with
        | (.error er, c1, t1) => (.error er, c1, t1)
        | (.ok va, c1, t1) =>
          match gen r .rval env c1 with
          | (.error er, c2, t2) => (.error er, c2, t1 ++ t2)
          | (.ok vb, c2, t2) =>
            match GenBinaryReconciled op va vb c2 with
            | (res, c3, t3) => (res, c3, t1 ++ t2 ++ t3)
  | .UnaryOp u e, mode, env, cnt =>
    match mode with
    | .lval rhs =>
      match u with
      | .Deref =>
        match gen e .rval env cnt with
        | (.error er, c1, t1) => (.error er, c1, t1)
        | (.ok v, c1, t1) => (.ok rhs, c1, t1 ++ [.store v.id rhs.id])
      | _ => (.error (should_not_happen "unary operator cannot be lvalue"), cnt, [])
    | .addr =>
      match u with
      | .Deref => gen e .rval env cnt
      | _ => (.error (should_not_happen "expression is not an lvalue"), cnt, [])
    | .rval =>
      match u with
      | .Minus =>
        match gen e .rval env cnt with
        | (.error er, c1, t1) => (.error er, c1, t1)
        | (.ok v, c1, t1) =>
          (.ok ⟨c1 + 1, v.shape⟩, c1 + 2,
            t1 ++ [.constant c1 0, .binary (c1 + 1) .Sub c1 v.id])
      | .Deref =>
        match gen e .rval env cnt with
        | (.error er, c1, t1) => (.error er, c1, t1)
        | (.ok v, c1, t1) => (.ok ⟨c1, v.shape⟩, c1 + 1, t1 ++ [.load c1 v.id])
      | _ =>
        match gen e .addr env cnt with
        | (.error er, c1, t1) => (.error er, c1, t1)
        | (.ok a, c1, t1) =>
          match gen e (.lval ⟨c1 + 2, a.shape⟩) env (c1 + 3) with
          | (.error er, c2, t2) =>
            (.error er, c2,
              t1 ++ [.load c1 a.id, .constant (c1 + 1) 1,
                .binary (c1 + 2) (if u.isInc then .Add else .Sub) c1 (c1 + 1)] ++ t2)
          | (.ok stored, c2, t2) =>
            (.ok (if u.isPost then ⟨c1, a.shape⟩ else stored), c2,
              t1 ++ [.load c1 a.id, .constant (c1 + 1) 1,
                .binary (c1 + 2) (if u.isInc then .Add else .Sub) c1 (c1 + 1)] ++ t2)
  | .TransOp e, mode, env, cnt =>
    match mode with
    | .lval _ => (.error (should_not_happen "transop cannot be lvalue"), cnt, [])
    | .addr => (.error (should_not_happen "expression is not an lvalue"), cnt, [])
    | .rval =>
      match gen e .rval env cnt with
      | (.error er, c1, t1) => (.error er, c1, t1)
      | (.ok v, c1, t1) =>
        (.ok ⟨c1, v.shape.reverse⟩, c1 + 1, t1 ++ [.trans c1 v.id])
  | .ConditionalOp c t e, mode, env, cnt =>
    match mode with
    | .lval _ => (.error (should_not_happen "conditional cannot be lvalue"), cnt, [])
    | .addr => (.error (should_not_happen "expression is not an lvalue"), cnt, [])
    | .rval =>
      match gen c .rval env cnt with
      | (.error er, c1, t1) => (.error er, c1, t1)
      | (.ok vc, c1, t1) =>
        match gen t .rval env c1 with
        | (.error er, c2, t2) => (.error er, c2, t1 ++ t2)
        | (.ok va, c2, t2) =>
          match gen e .rval env c2 with
          | (.error er, c3, t3) => (.error er, c3, t1 ++ t2 ++ t3)
          | (.ok vb, c3, t3) =>
            match GenSelectReconciled vc va vb c3 with
            | (res, c4, t4) => (res, c4, t1 ++ t2 ++ t3 ++ t4)
  | .FuncCall _, mode, _, cnt =>
    match mode with
    | .lval _ => (.error (should_not_happen "funccall cannot be lvalue"), cnt, [])
    | .addr => (.error (should_not_happen "expression is not an lvalue"), cnt, [])
    | .rval => (.error (error_not_implemented "not modelled: function call"), cnt, [])
  | .Object name, mode, env, cnt =>
    match lookupValueChain env name with
    | none => (.error (should_not_happen ("identifier " ++ name ++ " not found")), cnt, [])
    | some v =>
      match mode with
      | .rval => (.ok v, cnt, [])
      | .lval rhs => (.ok rhs, cnt, [.store v.id rhs.id])
      | .addr => (.ok v, cnt, [])
  | .Enumerator _, mode, _, cnt =>
    match mode with
    | .lval _ => (.error (should_not_happen "enumerator cannot be lvalue"), cnt, [])
    | .addr => (.error (should_not_happen "expression is not an lvalue"), cnt, [])
    | .rval => (.error (error_not_implemented "not modelled: enumerator"), cnt, [])
  | .Identifier name, mode, env, cnt =>
    match lookupValueChain env name with
    | none => (.error (should_not_happen ("identifier " ++ name ++ " not found")), cnt, [])
    | some v =>
      match mode with
      | .rval => (.ok v, cnt, [])
      | .lval rhs => (.ok rhs, cnt, [.store v.id rhs.id])
      | .addr => (.ok v, cnt, [])
  | .Constant v, mode, _, cnt =>
    match mode with
    | .lval _ => (.error (should_not_happen "constant cannot be lvalue"), cnt, [])
    | .addr => (.error (should_not_happen "expression is not an lvalue"), cnt, [])
    | .rval => (.ok ⟨cnt, []⟩, cnt + 1, [.constant cnt v])
  | .TempVar _, mode, _, cnt =>
    match mode with
    | .lval _ => (.error (should_not_happen "tempvar cannot be lvalue"), cnt, [])
    | .addr => (.error (should_not_happen "expression is not an lvalue"), cnt, [])
    | .rval => (.error (error_not_implemented "not modelled: temporary variable"), cnt, [])
  | .Declaration _, mode, _, cnt =>
    match mode with
    | .lval _ => (.error (should_not_happen "declaration cannot be lvalue"), cnt, [])
    | _ => (.error (should_not_happen "statement in expression position"), cnt, [])
  | .EmptyStmt, mode, _, cnt =>
    match mode with
    | .lval _ => (.error (should_not_happen "empty statement cannot be lvalue"), cnt, [])
    | _ => (.error (should_not_happen "statement in expression position"), cnt, [])
  | .IfStmt, mode, _, cnt =>
    match mode with
    | .lval _ => (.error (should_not_happen "if statement cannot be lvalue"), cnt, [])
    | _ => (.error (should_not_happen "statement in expression position"), cnt, [])
  | .ForStmt, mode, _, cnt =>
    match mode with
    | .lval _ => (.error (should_not_happen "for statement cannot be lvalue"), cnt, [])
    | _ => (.error (should_not_happen "statement in expression position"), cnt, [])
  | .JumpStmt, mode, _, cnt =>
    match mode with
    | .lval _ => (.error (should_not_happen "jump statement cannot be lvalue"), cnt, [])
    | _ => (.error (should_not_happen "statement in expression position"), cnt, [])
  | .ReturnStmt _, mode, _, cnt =>
    match mode with
    | .lval _ => (.error (should_not_happen "return statement cannot be lvalue"), cnt, [])
    | _ => (.error (should_not_happen "statement in expression position"), cnt, [])
  | .LabelStmt, mode, _, cnt =>
    match mode with
    | .lval _ => (.error (should_not_happen "label statement cannot be lvalue"), cnt, [])
    | _ => (.error (should_not_happen "statement in expression position"), cnt, [])
  | .CompoundStmt _, mode, _, cnt =>
    match mode with
    | .lval _ => (.error (should_not_happen "compound statement cannot be lvalue"), cnt, [])
    | _ => (.error (should_not_happen "statement in expression position"), cnt, [])
  | .FuncDef _ _, mode, _, cnt =>
    match mode with
    | .lval _ => (.error (should_not_happen "function definition cannot be lvalue"), cnt, [])
    | _ => (.error (should_not_happen "statement in expression position"), cnt, [])
  | .TranslationUnit _, mode, _, cnt =>
    match mode with
    | .lval _ => (.error (should_not_happen "translation unit cannot be lvalue"), cnt, [])
    | _ => (.error (should_not_happen "statement in expression position"), cnt, [])

/-- Rvalue lowering of one expression (`Generator::VisitExpr`). -/
def Generator.VisitExpr (e : ASTNode) (env : List scope) (cnt : Nat) : Res :=
  gen e .rval env cnt

/-- Translated from `LValAssigner::GenExpr` (`code_gen.h` lines 155-159): set `rhs_`,
dispatch on the target expression, return `ret_`. -/
def LValAssigner.GenExpr (e : ASTNode) (rhs : Val) (env : List scope) (cnt : Nat) : Res :=
  gen e (.lval rhs) env cnt

/-- Modelled from the spec: `Generator::GenAssignOp` (declaration only in
`code_gen.h` line 95) delegates to the `LValAssigner` with the already
computed right-hand value, and the combined call returns the stored value
(spec 4.2). -/
def Generator.GenAssignOp (lvalue : ASTNode) (rhs : Val) (env : List scope) (cnt : Nat) : Res :=
  LValAssigner.GenExpr lvalue rhs env cnt

/-- Modelled from the spec: `Generator::GenUnaryInc` (declaration only in
`code_gen.h` line 51): resolve the lvalue's storage, load the current
value, compute old plus-or-minus one, write back through the
lvalue-assignment path, and yield the old value for the postfix forms or
the new value for the prefix forms (spec 4.1). -/
def Generator.GenUnaryInc (arg : ASTNode) (is_inc : Bool) ( is_postfix : Bool)
    (env : List scope) (cnt : Nat) : Res :=
  match gen arg .addr env cnt with
  | (.error er, c1, t1) => (.error er, c1, t1)
  | (.ok a, c1, t1) =>
    match LValAssigner.GenExpr arg ⟨c1 + 2, a.shape⟩ env (c1 + 3) with
    | (.error er, c2, t2) =>
      (.error er, c2,
        t1 ++ [.load c1 a.id, .constant (c1 + 1) 1,
          .binary (c1 + 2) (if is_inc then .Add else .Sub) c1 (c1 + 1)] ++ t2)
    | (.ok stored, c2, t2) =>
      (.ok (if is_postfix then ⟨c1, a.shape⟩ else stored), c2,
        t1 ++ [.load c1 a.id, .constant (c1 + 1) 1,
          .binary (c1 + 2) (if is_inc then .Add else .Sub) c1 (c1 + 1)] ++ t2)

/-- Scope-stack events recorded by `pushScope`/`popScope`. -/
inductive ScopeEvent where
  | push
  | pop
deriving Repr, DecidableEq

/-- Result of lowering one statement: success or raised error, updated
counter, emitted instructions, and the scope events in order. -/
abbrev StmtRes := Except RuntimeError Unit × Nat × List Instr × List ScopeEvent

mutual

/-- Modelled from the spec: statement lowering
(`Generator::VisitCompoundStmt` and friends; bodies are not under the
sources).  Entering a compound statement or a function body pushes a
scope and the matching pop runs even when lowering the body aborts with
an error (scope-exit guarantee, spec 3 and 4.5).  Statement kinds no
claim exercises abort via `error_not_implemented` as a modelling
boundary; other expression nodes in statement position are lowered for
their effects. -/
def genStmt : ASTNode → List scope → Nat → StmtRes
  | .CompoundStmt body, env, cnt =>
    match genStmtList body (emptyScope :: env) cnt with
    | (r, c1, t1, ev) => (r, c1, t1, [.push] ++ ev ++ [.pop])
  | .FuncDef _ body, env, cnt =>
    match genStmt body (emptyScope :: env) cnt with
    | (r, c1, t1, ev) => (r, c1, t1, [.push] ++ ev ++ [.pop])
  | .TranslationUnit decls, env, cnt => genStmtList decls env cnt
  | .ReturnStmt e, env, cnt =>
    match gen e .rval env cnt with
    | (.error er, c1, t1) => (.error er, c1, t1, [])
    | (.ok _, c1, t1) => (.ok (), c1, t1, [])
  | .EmptyStmt, _, cnt => (.ok (), cnt, [], [])
  | .Declaration _, _, cnt => (.ok (), cnt, [], [])
  | .LabelStmt, _, cnt => (.ok (), cnt, [], [])
  | .IfStmt, _, cnt => (.error (error_not_implemented "not modelled: if statement"), cnt, [], [])
  | .ForStmt, _, cnt => (.error (error_not_implemented "not modelled: for statement"), cnt, [], [])
  | .JumpStmt, _, cnt => (.error (error_not_implemented "not modelled: jump statement"), cnt, [], [])
  | n, env, cnt =>
    match gen n .rval env cnt with
    | (.error er, c1, t1) => (.error er, c1, t1, [])
    | (.ok _, c1, t1) => (.ok (), c1, t1, [])

/-- Lower a statement sequence in order; a raised error aborts the
sequence, so later siblings are never visited. -/
def genStmtList : List ASTNode → List scope → Nat → StmtRes
  | [], _, cnt => (.ok (), cnt, [], [])
  | x :: xs, env, cnt =>
    match genStmt x env cnt with
    | (.error er, c1, t1, ev1) => (.error er, c1, t1, ev1)
    | (.ok _, c1, t1, ev1) =>
      match genStmtList xs env c1 with
      | (r, c2, t2, ev2) => (r, c2, t1 ++ t2, ev1 ++ ev2)

end

/-- The messages of the sixteen inline `LValAssigner` rejection handlers
(`code_gen.h` lines 138-153), by node kind; `none` for the four kinds
with declared (accepted) handlers. -/
def lvalRejectMsg : ASTNode → Option String
  | .ConditionalOp _ _ _ => some "conditional cannot be lvalue"
  | .FuncCall _ => some "funccall cannot be lvalue"
  | .TransOp _ => some "transop cannot be lvalue"
  | .Enumerator _ => some "enumerator cannot be lvalue"
  | .Constant _ => some "constant cannot be lvalue"
  | .TempVar _ => some "tempvar cannot be lvalue"
  | .Declaration _ => some "declaration cannot be lvalue"
  | .EmptyStmt => some "empty statement cannot be lvalue"
  | .IfStmt => some "if statement cannot be lvalue"
  | .ForStmt => some "for statement cannot be lvalue"
  | .JumpStmt => some "jump statement cannot be lvalue"
  | .ReturnStmt _ => some "return statement cannot be lvalue"
  | .LabelStmt => some "label statement cannot be lvalue"
  | .CompoundStmt _ => some "compound statement cannot be lvalue"
  | .FuncDef _ _ => some "function definition cannot be lvalue"
  | .TranslationUnit _ => some "translation unit cannot be lvalue"
  | _ => none

/-- The assignment targets the `LValAssigner` accepts: identifiers,
objects, dereference, and member/index access (spec 4.3). -/
def lvalAccepted : ASTNode → Bool
  | .Identifier _ => true
  | .Object _ => true
  | .UnaryOp u _ =>
    match u with
    | .Deref => true
    | _ => false
  | .BinaryOp op _ _ =>
    match op with
    | .Member | .Index => true
    | _ => false
  | _ => false

/-- Expressions whose rvalue lowering emits neither loads nor stores:
no assignment, increment/decrement, dereference, or member/index access
inside. -/
def pureExpr : ASTNode → Bool
  | .Identifier _ => true
  | .Object _ => true
  | .Constant _ => true
  | .BinaryOp .Add l r => pureExpr l && pureExpr r
  | .BinaryOp .Sub l r => pureExpr l && pureExpr r
  | .UnaryOp .Minus e => pureExpr e
  | .TransOp e => pureExpr e
  | .ConditionalOp c t e => pureExpr c && pureExpr t && pureExpr e
  | _ => false

/-- Valid lvalues whose address sub-expressions are pure: the canonical
assignment targets of the language. -/
def pureLVal : ASTNode → Bool
  | .Identifier _ => true
  | .Object _ => true
  | .UnaryOp .Deref e => pureExpr e
  | .BinaryOp .Member b i => pureExpr b && pureExpr i
  | .BinaryOp .Index b i => pureExpr b && pureExpr i
  | _ => false

/-- Number of `pushScope` events in a trace. -/
def pushes : List ScopeEvent → Nat
  | [] => 0
  | .push :: rest => pushes rest + 1
  | .pop :: rest => pushes rest

/-- Number of `popScope` events in a trace. -/
def pops : List ScopeEvent → Nat
  | [] => 0
  | .pop :: rest => pops rest + 1
  | .push :: rest => pops rest

/-- Number of load instructions in a trace. -/
def loads : List Instr → Nat
  | [] => 0
  | i :: rest => (if i.isLoad then 1 else 0) + loads rest

/-- Number of store instructions in a trace. -/
def stores : List Instr → Nat
  | [] => 0
  | i :: rest => (if i.isStore then 1 else 0) + stores rest

/-- Number of broadcast instructions in a trace. -/
def broadcasts : List Instr → Nat
  | [] => 0
  | i :: rest => (if i.isBroadcast then 1 else 0) + broadcasts rest

/-- A trace containing neither loads nor stores. -/
def lsFree : List Instr → Bool
  | [] => true
  | i :: rest => !i.isLoad && !i.isStore && lsFree rest

/-- The fused-softmax tutorial helper `next_power_of_2`: decrement, smear
the high bit rightward with five or-shift steps, increment. -/
def next_power_of_2 (n : Nat) : Nat :=
  let m0 := n - 1
  let m1 := m0 ||| (m0 >>> 1)
  let m2 := m1 ||| (m1 >>> 2)
  let m3 := m2 ||| (m2 >>> 4)
  let m4 := m3 ||| (m3 >>> 8)
  let m5 := m4 ||| (m4 >>> 16)
  m5 + 1

/-! ### Helper lemmas about traces -/

theorem lsFree_append (a b : List Instr) :
    lsFree (a ++ b) = (lsFree a && lsFree b) := by
  induction a with
  | nil => simp [lsFree]
  | cons i rest ih => simp [lsFree, ih, Bool.and_assoc]

theorem loads_append (a b : List Instr) : loads (a ++ b) = loads a + loads b := by
  induction a with
  | nil => simp [loads]
  | cons i rest ih => simp [loads, ih]; omega

theorem stores_append (a b : List Instr) : stores (a ++ b) = stores a + stores b := by
  induction a with
  | nil => simp [stores]
  | cons i rest ih => simp [stores, ih]; omega

theorem pushes_append (a b : List ScopeEvent) : pushes (a ++ b) = pushes a + pushes b := by
  induction a with
  | nil => simp [pushes]
  | cons i rest ih =>
    cases i with
    | push => simp [pushes, ih]; omega
    | pop => simp [pushes, ih]

theorem pops_append (a b : List ScopeEvent) : pops (a ++ b) = pops a + pops b := by
  induction a with
  | nil => simp [pops]
  | cons i rest ih =>
    cases i with
    | push => simp [pops, ih]
    | pop => simp [pops, ih]; omega

theorem lsFree_counts (t : List Instr) (h : lsFree t = true) :
    loads t = 0 ∧ stores t = 0 := by
  induction t with
  | nil => simp [loads, stores]
  | cons i rest ih =>
    rw [lsFree] at h
    simp only [Bool.and_eq_true, Bool.not_eq_true'] at h
    obtain ⟨⟨h1, h2⟩, h3⟩ := h
    obtain ⟨ih1, ih2⟩ := ih h3
    simp [loads, stores, h1, h2, ih1, ih2]

/-- Claim C1: for every AST node kind rejected by the `LValAssigner`
(conditional, function call, transpose, enumerator, constant, temporary,
and every statement kind), the visit raises `should_not_happen` with the
message naming the construct, and the emitted-instruction trace is empty,
so the IR module is unchanged on this error path. -/
theorem lval_reject_internal_error (n : ASTNode) (msg : String)
    (h : lvalRejectMsg n = some msg) (rhs : Val) (env : List scope) (cnt : Nat) :
    gen n (.lval rhs) env cnt = (.error (should_not_happen msg), cnt, []) := by
  cases n <;> simp_all [lvalRejectMsg, gen]

/-- Witness for C1 at a constant assignment target. -/
theorem lval_reject_internal_error_witness :
    lvalRejectMsg (.Constant 0) = some "constant cannot be lvalue" ∧
    gen (.Constant 0) (.lval ⟨5, []⟩) [] 3 =
      (.error (should_not_happen "constant cannot be lvalue"), 3, []) :=
  ⟨rfl, lval_reject_internal_error (.Constant 0) _ rfl ⟨5, []⟩ [] 3⟩

/-- Claim C7: the type namespace and the value namespace of a scope are
independent: binding a type leaves the value map and value lookups
unchanged, binding a value leaves the type map and type lookups
unchanged, and one name can denote a type and a value at once. -/
theorem scope_namespaces_independent (s : scope) (n m : String) (t : IRType) (v : Val) :
    (s.bindType n t).values = s.values ∧
    (s.bindValue n v).types = s.types ∧
    scope.lookupValue (s.bindType n t) m = s.lookupValue m ∧
    scope.lookupType (s.bindValue n v) m = s.lookupType m ∧
    ((s.bindType n t).bindValue n v).lookupType n = some t ∧
    ((s.bindType n t).bindValue n v).lookupValue n = some v := by
  refine ⟨rfl, rfl, rfl, rfl, ?_, ?_⟩ <;>
    simp [scope.bindType, scope.bindValue, scope.lookupType, scope.lookupValue, List.find?]

/-- Claim C9: `should_not_happen` prefixes its suffix with exactly
"internal compiler error: ", while `error_not_implemented` raises its
message verbatim, so internal errors are recognizable by that fixed
prefix. -/
theorem error_message_formats (suffix msg : String) :
    (should_not_happen suffix).what = "internal compiler error: " ++ suffix ∧
    (error_not_implemented msg).what = msg ∧
    ∃ rest, (should_not_happen suffix).what = "internal compiler error: " ++ rest :=
  ⟨rfl, rfl, suffix, rfl⟩

/-- Claim C8: both error helpers build the same kind of error object
(distinguished only by message, not by type): every internal error equals
some not-implemented error and vice versa, and an error raised while
lowering a statement aborts the rest of the sequence identically for
both kinds. -/
theorem two_error_kinds_same_abort (suffix : String) :
    (∃ msg, should_not_happen suffix = error_not_implemented msg) ∧
    (∀ e : RuntimeError, ∃ msg, e = error_not_implemented msg) ∧
    (∀ xs env cnt, genStmtList (.JumpStmt :: xs) env cnt =
      (.error (error_not_implemented "not modelled: jump statement"), cnt, [], [])) ∧
    (∀ xs env cnt,
      genStmtList (.ReturnStmt (.BinaryOp .Assign (.Constant 0) (.Constant 1)) :: xs) env cnt =
        (.error (should_not_happen "constant cannot be lvalue"), cnt + 1, [.constant cnt 1], [])) := by
  refine ⟨⟨"internal compiler error: " ++ suffix, rfl⟩, fun e => ⟨e.what, rfl⟩, ?_, ?_⟩
  · intro xs env cnt; simp [genStmtList, genStmt]
  · intro xs env cnt; simp [genStmtList, genStmt, gen]

/-- Claim C2: `GenAssignOp` (which delegates to `LValAssigner::GenExpr`
with the already computed right-hand value) returns the stored value to
the caller whenever it succeeds, so an assignment is usable as a
sub-expression: lowering `a = (b = c)` lowers `b = c` first and then
assigns its result to `a`, the whole expression producing that value. -/
theorem GenAssignOp_returns_stored :
    (∀ lv rhs env cnt v rest,
      Generator.GenAssignOp lv rhs env cnt = (.ok v, rest) → v = rhs) ∧
    (∀ env cnt a b c va vb vc,
      lookupValueChain env a = some va → lookupValueChain env b = some vb →
      lookupValueChain env c = some vc →
      gen (.BinaryOp .Assign (.Identifier a) (.BinaryOp .Assign (.Identifier b) (.Identifier c)))
          .rval env cnt =
        (.ok vc, cnt, [.store vb.id vc.id, .store va.id vc.id])) := by
  constructor
  · intro lv rhs env cnt v rest h
    unfold Generator.GenAssignOp LValAssigner.GenExpr at h
    cases lv <;> simp only [gen] at h <;> (repeat' split at h) <;> simp_all
  · intro env cnt a b c va vb vc ha hb hc
    simp [gen, ha, hb, hc]

/-- Witness for C2: the nested assignment `a = (b = c)` at a concrete
scope. -/
theorem GenAssignOp_returns_stored_witness :
    gen (.BinaryOp .Assign (.Identifier "a") (.BinaryOp .Assign (.Identifier "b") (.Identifier "c")))
        .rval [⟨[], [("a", ⟨0, []⟩), ("b", ⟨1, []⟩), ("c", ⟨2, []⟩)]⟩] 0 =
      (.ok ⟨2, []⟩, 0, [.store 1 2, .store 0 2]) :=
  GenAssignOp_returns_stored.2 [⟨[], [("a", ⟨0, []⟩), ("b", ⟨1, []⟩), ("c", ⟨2, []⟩)]⟩] 0
    "a" "b" "c" ⟨0, []⟩ ⟨1, []⟩ ⟨2, []⟩ rfl rfl rfl

/-- Claim C3: the node kinds the `LValAssigner` handles without an
internal error are exactly identifiers, objects, dereference, and
member/index access: every other shape always raises
`should_not_happen`, and each accepted shape, when it succeeds, resolves
a storage location and emits a store of the provided value as its final
instruction, returning that value. -/
theorem lval_accepted_exact :
    (∀ n, lvalAccepted n = false → ∀ rhs env cnt,
      ∃ m, (gen n (.lval rhs) env cnt).1 = .error (should_not_happen m)) ∧
    (∀ n, lvalAccepted n = true → ∀ rhs env cnt v c2 t,
      gen n (.lval rhs) env cnt = (.ok v, c2, t) →
      v = rhs ∧ ∃ pre loc, t = pre ++ [.store loc rhs.id]) := by
  constructor
  · intro n hn rhs env cnt
    cases n with
    | BinaryOp op l r =>
      cases op
      case Member => simp [lvalAccepted] at hn
      case Index => simp [lvalAccepted] at hn
      all_goals exact ⟨"binary operator cannot be lvalue", by simp [gen]⟩
    | UnaryOp u e =>
      cases u
      case Deref => simp [lvalAccepted] at hn
      all_goals exact ⟨"unary operator cannot be lvalue", by simp [gen]⟩
    | Identifier name => simp [lvalAccepted] at hn
    | Object name => simp [lvalAccepted] at hn
    | ConditionalOp c t e => exact ⟨"conditional cannot be lvalue", by simp [gen]⟩
    | FuncCall f => exact ⟨"funccall cannot be lvalue", by simp [gen]⟩
    | TransOp e => exact ⟨"transop cannot be lvalue", by simp [gen]⟩
    | Enumerator x => exact ⟨"enumerator cannot be lvalue", by simp [gen]⟩
    | Constant x => exact ⟨"constant cannot be lvalue", by simp [gen]⟩
    | TempVar x => exact ⟨"tempvar cannot be lvalue", by simp [gen]⟩
    | Declaration x => exact ⟨"declaration cannot be lvalue", by simp [gen]⟩
    | EmptyStmt => exact ⟨"empty statement cannot be lvalue", by simp [gen]⟩
    | IfStmt => exact ⟨"if statement cannot be lvalue", by simp [gen]⟩
    | ForStmt => exact ⟨"for statement cannot be lvalue", by simp [gen]⟩
    | JumpStmt => exact ⟨"jump statement cannot be lvalue", by simp [gen]⟩
    | ReturnStmt e => exact ⟨"return statement cannot be lvalue", by simp [gen]⟩
    | LabelStmt => exact ⟨"label statement cannot be lvalue", by simp [gen]⟩
    | CompoundStmt body => exact ⟨"compound statement cannot be lvalue", by simp [gen]⟩
    | FuncDef f body => exact ⟨"function definition cannot be lvalue", by simp [gen]⟩
    | TranslationUnit d => exact ⟨"translation unit cannot be lvalue", by simp [gen]⟩
  · intro n hn rhs env cnt v c2 t hg
    cases n with
    | Identifier name =>
      simp only [gen] at hg
      cases hL : lookupValueChain env name with
      | none => rw [hL] at hg; simp at hg
      | some w =>
        rw [hL] at hg
        simp only [Prod.mk.injEq, Except.ok.injEq] at hg
        obtain ⟨h1, _, h3⟩ := hg
        subst h1; subst h3
        exact ⟨rfl, [], w.id, by simp⟩
    | Object name =>
      simp only [gen] at hg
      cases hL : lookupValueChain env name with
      | none => rw [hL] at hg; simp at hg
      | some w =>
        rw [hL] at hg
        simp only [Prod.mk.injEq, Except.ok.injEq] at hg
        obtain ⟨h1, _, h3⟩ := hg
        subst h1; subst h3
        exact ⟨rfl, [], w.id, by simp⟩
    | UnaryOp u e =>
      cases u <;> try simp [lvalAccepted] at hn
      simp only [gen] at hg
      rcases hE : gen e .rval env cnt with ⟨resE, cE, tE⟩
      rw [hE] at hg
      cases resE with
      | error er => simp at hg
      | ok w =>
        simp only [Prod.mk.injEq, Except.ok.injEq] at hg
        obtain ⟨h1, _, h3⟩ := hg
        subst h1; subst h3
        exact ⟨rfl, tE, w.id, rfl⟩
    | BinaryOp op b i =>
      cases op <;> try simp [lvalAccepted] at hn
      all_goals
        simp only [gen] at hg
        rcases hB : gen b .rval env cnt with ⟨resB, cB, tB⟩
        rw [hB] at hg
        cases resB with
        | error er => simp at hg
        | ok vb =>
          dsimp only at hg
          rcases hI : gen i .rval env cB with ⟨resI, cI, tI⟩
          rw [hI] at hg
          cases resI with
          | error er => simp at hg
          | ok vi =>
            simp only [Prod.mk.injEq, Except.ok.injEq] at hg
            obtain ⟨h1, _, h3⟩ := hg
            subst h1; subst h3
            exact ⟨rfl, tB ++ (tI ++ [Instr.gep cI vb.id vi.id]), cI, by simp⟩
    | ConditionalOp c t e => simp [lvalAccepted] at hn
    | FuncCall f => simp [lvalAccepted] at hn
    | TransOp e => simp [lvalAccepted] at hn
    | Enumerator x => simp [lvalAccepted] at hn
    | Constant x => simp [lvalAccepted] at hn
    | TempVar x => simp [lvalAccepted] at hn
    | Declaration x => simp [lvalAccepted] at hn
    | EmptyStmt => simp [lvalAccepted] at hn
    | IfStmt => simp [lvalAccepted] at hn
    | ForStmt => simp [lvalAccepted] at hn
    | JumpStmt => simp [lvalAccepted] at hn
    | ReturnStmt e => simp [lvalAccepted] at hn
    | LabelStmt => simp [lvalAccepted] at hn
    | CompoundStmt body => simp [lvalAccepted] at hn
    | FuncDef f body => simp [lvalAccepted] at hn
    | TranslationUnit d => simp [lvalAccepted] at hn

/-- Witness for C3: storing through an identifier bound in scope. -/
theorem lval_accepted_exact_witness :
    Val.mk 9 [] = Val.mk 9 [] ∧
    ∃ pre loc, [Instr.store 4 9] = pre ++ [Instr.store loc 9] :=
  lval_accepted_exact.2 (.Identifier "x") rfl ⟨9, []⟩ [⟨[], [("x", ⟨4, []⟩)]⟩] 0 ⟨9, []⟩ 0
    [.store 4 9] rfl

theorem stmt_balance_aux : ∀ k : Nat,
    (∀ (n : ASTNode) (env : List scope) (cnt : Nat), sizeOf n ≤ k →
      pushes (genStmt n env cnt).2.2.2 = pops (genStmt n env cnt).2.2.2) ∧
    (∀ (l : List ASTNode) (env : List scope) (cnt : Nat), sizeOf l ≤ k →
      pushes (genStmtList l env cnt).2.2.2 = pops (genStmtList l env cnt).2.2.2) := by
  intro k
  induction k using Nat.strong_induction_on with
  | _ k ih =>
    constructor
    · intro n env cnt hk
      cases n with
      | CompoundStmt body =>
        have hs : sizeOf body < sizeOf (ASTNode.CompoundStmt body) := by simp
        have hb := (ih (sizeOf body) (by omega)).2 body (emptyScope :: env) cnt le_rfl
        simp only [genStmt]
        rcases hL : genStmtList body (emptyScope :: env) cnt with ⟨r, c1, t1, ev⟩
        rw [hL] at hb
        simp [pushes_append, pops_append, pushes, pops] at *
        all_goals omega
      | FuncDef nm body =>
        have hs : sizeOf body < sizeOf (ASTNode.FuncDef nm body) := by simp
        have hb := (ih (sizeOf body) (by omega)).1 body (emptyScope :: env) cnt le_rfl
        simp only [genStmt]
        rcases hL : genStmt body (emptyScope :: env) cnt with ⟨r, c1, t1, ev⟩
        rw [hL] at hb
        simp [pushes_append, pops_append, pushes, pops] at *
        all_goals omega
      | TranslationUnit decls =>
        have hs : sizeOf decls < sizeOf (ASTNode.TranslationUnit decls) := by simp
        have hb := (ih (sizeOf decls) (by omega)).2 decls env cnt le_rfl
        simp only [genStmt]
        exact hb
      | ReturnStmt e =>
        simp only [genStmt]
        rcases hE : gen e .rval env cnt with ⟨res, c1, t1⟩
        cases res <;> simp [pushes, pops]
      | EmptyStmt => simp [genStmt, pushes, pops]
      | Declaration nm => simp [genStmt, pushes, pops]
      | LabelStmt => simp [genStmt, pushes, pops]
      | IfStmt => simp [genStmt, pushes, pops]
      | ForStmt => simp [genStmt, pushes, pops]
      | JumpStmt => simp [genStmt, pushes, pops]
      | BinaryOp op l r =>
        simp only [genStmt]
        rcases hE : gen (ASTNode.BinaryOp op l r) .rval env cnt with ⟨res, c1, t1⟩
        cases res <;> simp [pushes, pops]
      | UnaryOp u e =>
        simp only [genStmt]
        rcases hE : gen (ASTNode.UnaryOp u e) .rval env cnt with ⟨res, c1, t1⟩
        cases res <;> simp [pushes, pops]
      | TransOp e =>
        simp only [genStmt]
        rcases hE : gen (ASTNode.TransOp e) .rval env cnt with ⟨res, c1, t1⟩
        cases res <;> simp [pushes, pops]
      | ConditionalOp c t e =>
        simp only [genStmt]
        rcases hE : gen (ASTNode.ConditionalOp c t e) .rval env cnt with ⟨res, c1, t1⟩
        cases res <;> simp [pushes, pops]
      | FuncCall f =>
        simp only [genStmt]
        rcases hE : gen (ASTNode.FuncCall f) .rval env cnt with ⟨res, c1, t1⟩
        cases res <;> simp [pushes, pops]
      | Object nm =>
        simp only [genStmt]
        rcases hE : gen (ASTNode.Object nm) .rval env cnt with ⟨res, c1, t1⟩
        cases res <;> simp [pushes, pops]
      | Enumerator nm =>
        simp only [genStmt]
        rcases hE : gen (ASTNode.Enumerator nm) .rval env cnt with ⟨res, c1, t1⟩
        cases res <;> simp [pushes, pops]
      | Identifier nm =>
        simp only [genStmt]
        rcases hE : gen (ASTNode.Identifier nm) .rval env cnt with ⟨res, c1, t1⟩
        cases res <;> simp [pushes, pops]
      | Constant v =>
        simp only [genStmt]
        rcases hE : gen (ASTNode.Constant v) .rval env cnt with ⟨res, c1, t1⟩
        cases res <;> simp [pushes, pops]
      | TempVar v =>
        simp only [genStmt]
        rcases hE : gen (ASTNode.TempVar v) .rval env cnt with ⟨res, c1, t1⟩
        cases res <;> simp [pushes, pops]
    · intro l env cnt hk
      cases l with
      | nil => simp [genStmtList, pushes, pops]
      | cons x xs =>
        have hsx : sizeOf x < sizeOf (x :: xs) := by simp; omega
        have hsxs : sizeOf xs < sizeOf (x :: xs) := by simp
        have hx := (ih (sizeOf x) (by omega)).1 x env cnt le_rfl
        simp only [genStmtList]
        rcases hX : genStmt x env cnt with ⟨r1, c1, t1, ev1⟩
        rw [hX] at hx
        cases r1 with
        | error er => exact hx
        | ok u =>
          dsimp only
          have hxs := (ih (sizeOf xs) (by omega)).2 xs env c1 le_rfl
          rcases hXS : genStmtList xs env c1 with ⟨r2, c2, t2, ev2⟩
          rw [hXS] at hxs
          simp [pushes_append, pops_append] at *
          all_goals omega

/-- Claim C4: every `pushScope` event in a statement lowering is matched
by exactly one `popScope` event, including when lowering exits through a
raised internal error (scope-exit guarantee): the push and pop counts of
the recorded scope-event trace are always equal. -/
theorem genStmt_scope_balanced (n : ASTNode) (env : List scope) (cnt : Nat) :
    pushes (genStmt n env cnt).2.2.2 = pops (genStmt n env cnt).2.2.2 :=
  (stmt_balance_aux (sizeOf n)).1 n env cnt le_rfl

theorem smallerShape_ne {a b : List Nat} (h : smallerShape a b = true) : a ≠ b := by
  intro heq
  subst heq
  simp [smallerShape] at h

theorem smallerShape_asymm {a b : List Nat} (h : smallerShape a b = true) :
    smallerShape b a = false := by
  cases hba : smallerShape b a with
  | false => rfl
  | true =>
    exfalso
    simp only [smallerShape, Bool.or_eq_true, Bool.and_eq_true, decide_eq_true_eq,
      beq_iff_eq] at h hba
    omega

/-- Claim C5: lowering a well-typed arithmetic binary expression whose
operands have equal tile shapes emits no broadcast instruction; when the
shapes are broadcastable but unequal, exactly the smaller-rank/size
operand receives one `GenBroadcastOp`-inserted broadcast instruction,
placed before the binary instruction. -/
theorem binary_broadcast_exact (op : BinKind) (hop : op = .Add ∨ op = .Sub)
    (x y : String) (env : List scope) (cnt : Nat) (vx vy : Val)
    (hx : lookupValueChain env x = some vx) (hy : lookupValueChain env y = some vy) :
    (vx.shape = vy.shape →
      gen (.BinaryOp op (.Identifier x) (.Identifier y)) .rval env cnt =
        (.ok ⟨cnt, vx.shape⟩, cnt + 1, [.binary cnt op vx.id vy.id])) ∧
    (smallerShape vx.shape vy.shape = true →
      gen (.BinaryOp op (.Identifier x) (.Identifier y)) .rval env cnt =
        (.ok ⟨cnt + 1, vy.shape⟩, cnt + 2,
          [.broadcast cnt vx.id vy.shape, .binary (cnt + 1) op cnt vy.id])) ∧
    (smallerShape vy.shape vx.shape = true →
      gen (.BinaryOp op (.Identifier x) (.Identifier y)) .rval env cnt =
        (.ok ⟨cnt + 1, vx.shape⟩, cnt + 2,
          [.broadcast cnt vy.id vx.shape, .binary (cnt + 1) op vx.id cnt])) ∧
    (vx.shape = vy.shape →
      broadcasts (gen (.BinaryOp op (.Identifier x) (.Identifier y)) .rval env cnt).2.2 = 0) ∧
    (smallerShape vx.shape vy.shape = true →
      broadcasts (gen (.BinaryOp op (.Identifier x) (.Identifier y)) .rval env cnt).2.2 = 1) := by
  have main :
      (vx.shape = vy.shape →
        gen (.BinaryOp op (.Identifier x) (.Identifier y)) .rval env cnt =
          (.ok ⟨cnt, vx.shape⟩, cnt + 1, [.binary cnt op vx.id vy.id])) ∧
      (smallerShape vx.shape vy.shape = true →
        gen (.BinaryOp op (.Identifier x) (.Identifier y)) .rval env cnt =
          (.ok ⟨cnt + 1, vy.shape⟩, cnt + 2,
            [.broadcast cnt vx.id vy.shape, .binary (cnt + 1) op cnt vy.id])) ∧
      (smallerShape vy.shape vx.shape = true →
        gen (.BinaryOp op (.Identifier x) (.Identifier y)) .rval env cnt =
          (.ok ⟨cnt + 1, vx.shape⟩, cnt + 2,
            [.broadcast cnt vy.id vx.shape, .binary (cnt + 1) op vx.id cnt])) := by
    refine ⟨?_, ?_, ?_⟩
    · intro hsh
      rcases hop with rfl | rfl <;>
        simp [gen, hx, hy, GenBinaryReconciled, GenBroadcastOp, hsh]
    · intro hsm
      have hne := smallerShape_ne hsm
      rcases hop with rfl | rfl <;>
        simp [gen, hx, hy, GenBinaryReconciled, GenBroadcastOp, hne, hsm]
    · intro hsm
      have hne := Ne.symm (smallerShape_ne hsm)
      have hasym := smallerShape_asymm hsm
      rcases hop with rfl | rfl <;>
        simp [gen, hx, hy, GenBinaryReconciled, GenBroadcastOp, hne, hsm, hasym]
  refine ⟨main.1, main.2.1, main.2.2, ?_, ?_⟩
  · intro hsh
    rw [main.1 hsh]
    simp [broadcasts, Instr.isBroadcast]
  · intro hsm
    rw [main.2.1 hsm]
    simp [broadcasts, Instr.isBroadcast]

/-- Witness for C5: a scalar-vs-tile pair where the left operand is
broadcast, and an equal-shape pair emitting no broadcast. -/
theorem binary_broadcast_exact_witness :
    gen (.BinaryOp .Add (.Identifier "x") (.Identifier "y")) .rval
        [⟨[], [("x", ⟨0, []⟩), ("y", ⟨1, [4]⟩)]⟩] 0 =
      (.ok ⟨1, [4]⟩, 2, [.broadcast 0 0 [4], .binary 1 .Add 0 1]) :=
  (binary_broadcast_exact .Add (Or.inl rfl) "x" "y"
    [⟨[], [("x", ⟨0, []⟩), ("y", ⟨1, [4]⟩)]⟩] 0 ⟨0, []⟩ ⟨1, [4]⟩ rfl rfl).2.1 (by decide)

theorem lsFree_GenBinaryReconciled (op : BinKind) (a b : Val) (c : Nat) :
    lsFree (GenBinaryReconciled op a b c).2.2 = true := by
  unfold GenBinaryReconciled GenBroadcastOp
  split_ifs <;> simp [lsFree, Instr.isLoad, Instr.isStore]

theorem lsFree_GenSelectReconciled (cond a b : Val) (c : Nat) :
    lsFree (GenSelectReconciled cond a b c).2.2 = true := by
  unfold GenSelectReconciled GenBroadcastOp
  split_ifs <;> simp [lsFree, Instr.isLoad, Instr.isStore]

theorem pure_lsFree_aux : ∀ k : Nat, ∀ e : ASTNode, sizeOf e ≤ k → pureExpr e = true →
    ∀ (env : List scope) (cnt : Nat), lsFree (gen e .rval env cnt).2.2 = true := by
  intro k
  induction k using Nat.strong_induction_on with
  | _ k ih =>
    intro e hk hp env cnt
    cases e with
    | Identifier name =>
      simp only [gen]
      cases hL : lookupValueChain env name <;> simp [lsFree]
    | Object name =>
      simp only [gen]
      cases hL : lookupValueChain env name <;> simp [lsFree]
    | Constant v => simp [gen, lsFree, Instr.isLoad, Instr.isStore]
    | BinaryOp op l r =>
      have hsl : sizeOf l < sizeOf (ASTNode.BinaryOp op l r) := by simp; omega
      have hsr : sizeOf r < sizeOf (ASTNode.BinaryOp op l r) := by simp
      cases op <;> simp [pureExpr] at hp
      all_goals
        obtain ⟨hpl, hpr⟩ := hp
        have ihl := ih (sizeOf l) (by omega) l le_rfl hpl env cnt
        simp only [gen]
        rcases hgl : gen l .rval env cnt with ⟨resl, c1, t1⟩
        rw [hgl] at ihl
        cases resl with
        | error er => simpa using ihl
        | ok va =>
          have ihr := ih (sizeOf r) (by omega) r le_rfl hpr env c1
          dsimp only
          rcases hgr : gen r .rval env c1 with ⟨resr, c2, t2⟩
          rw [hgr] at ihr
          cases resr with
          | error er =>
            simp only at ihl ihr
            simp [lsFree_append, ihl, ihr]
          | ok vb =>
            simp only at ihl ihr
            simp [lsFree_append, ihl, ihr, lsFree_GenBinaryReconciled]
    | UnaryOp u e =>
      have hse : sizeOf e < sizeOf (ASTNode.UnaryOp u e) := by simp
      cases u <;> simp [pureExpr] at hp
      have ihe := ih (sizeOf e) (by omega) e le_rfl hp env cnt
      simp only [gen]
      rcases hge : gen e .rval env cnt with ⟨rese, c1, t1⟩
      rw [hge] at ihe
      cases rese with
      | error er => simpa using ihe
      | ok v =>
        simp only at ihe
        simp [lsFree_append, ihe, lsFree, Instr.isLoad, Instr.isStore]
    | TransOp e =>
      have hse : sizeOf e < sizeOf (ASTNode.TransOp e) := by simp
      simp only [pureExpr] at hp
      have ihe := ih (sizeOf e) (by omega) e le_rfl hp env cnt
      simp only [gen]
      rcases hge : gen e .rval env cnt with ⟨rese, c1, t1⟩
      rw [hge] at ihe
      cases rese with
      | error er => simpa using ihe
      | ok v =>
        simp only at ihe
        simp [lsFree_append, ihe, lsFree, Instr.isLoad, Instr.isStore]
    | ConditionalOp c t e =>
      have hsc : sizeOf c < sizeOf (ASTNode.ConditionalOp c t e) := by simp; omega
      have hst : sizeOf t < sizeOf (ASTNode.ConditionalOp c t e) := by simp; omega
      have hse : sizeOf e < sizeOf (ASTNode.ConditionalOp c t e) := by simp
      simp [pureExpr] at hp
      obtain ⟨⟨hpc, hpt⟩, hpe⟩ := hp
      have ihc := ih (sizeOf c) (by omega) c le_rfl hpc env cnt
      simp only [gen]
      rcases hgc : gen c .rval env cnt with ⟨resc, c1, t1⟩
      rw [hgc] at ihc
      cases resc with
      | error er => simpa using ihc
      | ok vc =>
        have iht := ih (sizeOf t) (by omega) t le_rfl hpt env c1
        dsimp only
        rcases hgt : gen t .rval env c1 with ⟨rest2, c2, t2⟩
        rw [hgt] at iht
        cases rest2 with
        | error er =>
          simp only at ihc iht
          simp [lsFree_append, ihc, iht]
        | ok va =>
          have ihe := ih (sizeOf e) (by omega) e le_rfl hpe env c2
          dsimp only
          rcases hge : gen e .rval env c2 with ⟨rese, c3, t3⟩
          rw [hge] at ihe
          cases rese with
          | error er =>
            simp only at ihc iht ihe
            simp [lsFree_append, ihc, iht, ihe]
          | ok vb =>
            simp only at ihc iht ihe
            simp [lsFree_append, ihc, iht, ihe, lsFree_GenSelectReconciled]
    | FuncCall f => simp [pureExpr] at hp
    | Enumerator nm => simp [pureExpr] at hp
    | TempVar nm => simp [pureExpr] at hp
    | Declaration nm => simp [pureExpr] at hp
    | EmptyStmt => simp [pureExpr] at hp
    | IfStmt => simp [pureExpr] at hp
    | ForStmt => simp [pureExpr] at hp
    | JumpStmt => simp [pureExpr] at hp
    | ReturnStmt e => simp [pureExpr] at hp
    | LabelStmt => simp [pureExpr] at hp
    | CompoundStmt body => simp [pureExpr] at hp
    | FuncDef f body => simp [pureExpr] at hp
    | TranslationUnit d => simp [pureExpr] at hp

theorem pure_lsFree (e : ASTNode) (hp : pureExpr e = true) (env : List scope) (cnt : Nat) :
    lsFree (gen e .rval env cnt).2.2 = true :=
  pure_lsFree_aux (sizeOf e) e le_rfl hp env cnt

theorem pure_addr_lsFree (lv : ASTNode) (hp : pureLVal lv = true) (env : List scope) (cnt : Nat) :
    lsFree (gen lv .addr env cnt).2.2 = true := by
  cases lv with
  | Identifier name =>
    simp only [gen]
    cases hL : lookupValueChain env name <;> simp [lsFree]
  | Object name =>
    simp only [gen]
    cases hL : lookupValueChain env name <;> simp [lsFree]
  | UnaryOp u e =>
    cases u <;> simp [pureLVal] at hp
    simpa only [gen] using pure_lsFree e hp env cnt
  | BinaryOp op b i =>
    cases op <;> simp [pureLVal] at hp
    all_goals
      obtain ⟨hpb, hpi⟩ := hp
      have ihb := pure_lsFree b hpb env cnt
      simp only [gen]
      rcases hgb : gen b .rval env cnt with ⟨resb, c1, t1⟩
      rw [hgb] at ihb
      cases resb with
      | error er => simpa using ihb
      | ok vb =>
        have ihi := pure_lsFree i hpi env c1
        dsimp only
        rcases hgi : gen i .rval env c1 with ⟨resi, c2, t2⟩
        rw [hgi] at ihi
        cases resi with
        | error er =>
          simp only at ihb ihi
          simp [lsFree_append, ihb, ihi]
        | ok vi =>
          simp only at ihb ihi
          simp [lsFree_append, ihb, ihi, lsFree, Instr.isLoad, Instr.isStore]
  | ConditionalOp c t e => simp [pureLVal] at hp
  | FuncCall f => simp [pureLVal] at hp
  | TransOp e => simp [pureLVal] at hp
  | Enumerator nm => simp [pureLVal] at hp
  | Constant v => simp [pureLVal] at hp
  | TempVar nm => simp [pureLVal] at hp
  | Declaration nm => simp [pureLVal] at hp
  | EmptyStmt => simp [pureLVal] at hp
  | IfStmt => simp [pureLVal] at hp
  | ForStmt => simp [pureLVal] at hp
  | JumpStmt => simp [pureLVal] at hp
  | ReturnStmt e => simp [pureLVal] at hp
  | LabelStmt => simp [pureLVal] at hp
  | CompoundStmt body => simp [pureLVal] at hp
  | FuncDef f body => simp [pureLVal] at hp
  | TranslationUnit d => simp [pureLVal] at hp

theorem pure_lval_store (lv : ASTNode) (hp : pureLVal lv = true) (rhs : Val) (env : List scope)
    (cnt : Nat) (v : Val) (c2 : Nat) (t : List Instr)
    (hg : gen lv (.lval rhs) env cnt = (.ok v, c2, t)) :
    v = rhs ∧ ∃ pre loc, t = pre ++ [.store loc rhs.id] ∧ lsFree pre = true := by
  cases lv with
  | Identifier name =>
    simp only [gen] at hg
    cases hL : lookupValueChain env name with
    | none => rw [hL] at hg; simp at hg
    | some w =>
      rw [hL] at hg
      simp only [Prod.mk.injEq, Except.ok.injEq] at hg
      obtain ⟨h1, _, h3⟩ := hg
      subst h1; subst h3
      exact ⟨rfl, [], w.id, by simp, rfl⟩
  | Object name =>
    simp only [gen] at hg
    cases hL : lookupValueChain env name with
    | none => rw [hL] at hg; simp at hg
    | some w =>
      rw [hL] at hg
      simp only [Prod.mk.injEq, Except.ok.injEq] at hg
      obtain ⟨h1, _, h3⟩ := hg
      subst h1; subst h3
      exact ⟨rfl, [], w.id, by simp, rfl⟩
  | UnaryOp u e =>
    cases u <;> simp [pureLVal] at hp
    have hfree := pure_lsFree e hp env cnt
    simp only [gen] at hg
    rcases hE : gen e .rval env cnt with ⟨resE, cE, tE⟩
    rw [hE] at hg
    rw [hE] at hfree
    cases resE with
    | error er => simp at hg
    | ok w =>
      simp only [Prod.mk.injEq, Except.ok.injEq] at hg
      obtain ⟨h1, _, h3⟩ := hg
      subst h1; subst h3
      simp only at hfree
      exact ⟨rfl, tE, w.id, rfl, hfree⟩
  | BinaryOp op b i =>
    cases op <;> simp [pureLVal] at hp
    all_goals
      obtain ⟨hpb, hpi⟩ := hp
      have hfb := pure_lsFree b hpb env cnt
      simp only [gen] at hg
      rcases hB : gen b .rval env cnt with ⟨resB, cB, tB⟩
      rw [hB] at hg
      rw [hB] at hfb
      cases resB with
      | error er => simp at hg
      | ok vb =>
        dsimp only at hg
        have hfi := pure_lsFree i hpi env cB
        rcases hI : gen i .rval env cB with ⟨resI, cI, tI⟩
        rw [hI] at hg
        rw [hI] at hfi
        cases resI with
        | error er => simp at hg
        | ok vi =>
          simp only [Prod.mk.injEq, Except.ok.injEq] at hg
          obtain ⟨h1, _, h3⟩ := hg
          subst h1; subst h3
          simp only at hfb hfi
          refine ⟨rfl, tB ++ (tI ++ [Instr.gep cI vb.id vi.id]), cI, by simp, ?_⟩
          simp [lsFree_append, hfb, hfi, lsFree, Instr.isLoad, Instr.isStore]
  | ConditionalOp c t' e => simp [pureLVal] at hp
  | FuncCall f => simp [pureLVal] at hp
  | TransOp e => simp [pureLVal] at hp
  | Enumerator nm => simp [pureLVal] at hp
  | Constant cv => simp [pureLVal] at hp
  | TempVar nm => simp [pureLVal] at hp
  | Declaration nm => simp [pureLVal] at hp
  | EmptyStmt => simp [pureLVal] at hp
  | IfStmt => simp [pureLVal] at hp
  | ForStmt => simp [pureLVal] at hp
  | JumpStmt => simp [pureLVal] at hp
  | ReturnStmt e => simp [pureLVal] at hp
  | LabelStmt => simp [pureLVal] at hp
  | CompoundStmt body => simp [pureLVal] at hp
  | FuncDef f body => simp [pureLVal] at hp
  | TranslationUnit d => simp [pureLVal] at hp

/-- Claim C6: for an increment or decrement on a valid (pure) lvalue,
lowering emits exactly one load and exactly one store, the store going
through the lvalue-assignment path and writing the old value
plus-or-minus one; the postfix forms return the loaded pre-increment
value, the prefix forms return the written post-increment value. -/
theorem GenUnaryInc_one_load_one_store (lv : ASTNode) (hp : pureLVal lv = true)
    (is_inc : Bool) ( is_postfix : Bool) (env : List scope) (cnt : Nat)
    (v : Val) (c2 : Nat) (t : List Instr)
    (h : Generator.GenUnaryInc lv is_inc is_postfix env cnt = (.ok v, c2, t)) :
    loads t = 1 ∧ stores t = 1 ∧
    ∃ k addr loc pre mid,
      lsFree pre = true ∧ lsFree mid = true ∧
      t = pre ++ [.load k addr, .constant (k + 1) 1,
        .binary (k + 2) (if is_inc then .Add else .Sub) k (k + 1)] ++ mid ++
        [.store loc (k + 2)] ∧
      v.id = (if is_postfix then k else k + 2) := by
  unfold Generator.GenUnaryInc at h
  rcases hA : gen lv .addr env cnt with ⟨resA, cA, tA⟩
  rw [hA] at h
  cases resA with
  | error er => simp at h
  | ok a =>
    dsimp only at h
    rcases hW : LValAssigner.GenExpr lv ⟨cA + 2, a.shape⟩ env (cA + 3) with ⟨resW, cW, tW⟩
    rw [hW] at h
    cases resW with
    | error er => simp at h
    | ok stored =>
      simp only [Prod.mk.injEq, Except.ok.injEq] at h
      obtain ⟨h1, h2, h3⟩ := h
      have hfreeA := pure_addr_lsFree lv hp env cnt
      rw [hA] at hfreeA
      simp only at hfreeA
      have hstore := pure_lval_store lv hp ⟨cA + 2, a.shape⟩ env (cA + 3) stored cW tW
        (by simpa [LValAssigner.GenExpr] using hW)
      obtain ⟨hs1, pre2, loc, hs2, hs3⟩ := hstore
      subst h3
      obtain ⟨hlA, hsA⟩ := lsFree_counts tA hfreeA
      obtain ⟨hl2, hs2c⟩ := lsFree_counts pre2 hs3
      refine ⟨?_, ?_, cA, a.id, loc, tA, pre2, hfreeA, hs3, ?_, ?_⟩
      · simp [loads_append, hs2, hlA, hl2, loads, Instr.isLoad, Instr.isStore]
      · simp [stores_append, hs2, hsA, hs2c, stores, Instr.isLoad, Instr.isStore]
      · rw [hs2]
        simp [List.append_assoc]
      · subst h1
        cases is_postfix with
        | true => simp
        | false => simp [hs1]

/-- Witness for C6: postfix increment of an identifier bound in scope. -/
theorem GenUnaryInc_one_load_one_store_witness :
    loads [Instr.load 10 7, Instr.constant 11 1, Instr.binary 12 .Add 10 11, Instr.store 7 12] = 1 ∧
    stores [Instr.load 10 7, Instr.constant 11 1, Instr.binary 12 .Add 10 11, Instr.store 7 12] = 1 ∧
    ∃ k addr loc pre mid,
      lsFree pre = true ∧ lsFree mid = true ∧
      [Instr.load 10 7, Instr.constant 11 1, Instr.binary 12 .Add 10 11, Instr.store 7 12] =
        pre ++ [.load k addr, .constant (k + 1) 1, .binary (k + 2) .Add k (k + 1)] ++ mid ++
        [.store loc (k + 2)] ∧
      (Val.mk 10 []).id = (if true then k else k + 2) :=
  GenUnaryInc_one_load_one_store (.Identifier "i") rfl true true
    [⟨[], [("i", ⟨7, []⟩)]⟩] 10 ⟨10, []⟩ 13
    [Instr.load 10 7, Instr.constant 11 1, Instr.binary 12 .Add 10 11, Instr.store 7 12] rfl

theorem or_shift_testBit (x k i : Nat) :
    (x ||| (x >>> k)).testBit i = (x.testBit i || x.testBit (k + i)) := by
  simp [Nat.testBit_or, Nat.testBit_shiftRight]

theorem or_shift_high_false (x k s : Nat) (h : ∀ i, s ≤ i → x.testBit i = false)
    (i : Nat) (hi : s ≤ i) : (x ||| (x >>> k)).testBit i = false := by
  rw [or_shift_testBit, h i hi, h (k + i) (by omega)]
  rfl

theorem or_shift_fill (x t c : Nat) (h : ∀ j, j ≤ t → t - j < c → x.testBit j = true)
    (j : Nat) (hj : j ≤ t) (hlt : t - j < c + c) : (x ||| (x >>> c)).testBit j = true := by
  rw [or_shift_testBit]
  rcases lt_or_ge (t - j) c with hc | hc
  · rw [h j hj hc]
    rfl
  · have hjc : c + j ≤ t := by omega
    rw [h (c + j) hjc (by omega)]
    simp

theorem testBit_size_pred (x : Nat) (hx : 0 < x) : x.testBit (x.size - 1) = true := by
  have hs : 0 < x.size := Nat.size_pos.mpr hx
  have h1 : 2 ^ (x.size - 1) ≤ x := Nat.lt_size.mp (by omega)
  have h2 : x < 2 ^ x.size := Nat.lt_size_self x
  rw [Nat.testBit_to_div_mod]
  have hpow : 2 ^ (x.size - 1) * 2 = 2 ^ x.size := by
    rw [← Nat.pow_succ]
    congr 1
    omega
  have hdiv : x / 2 ^ (x.size - 1) = 1 := by
    have hp : 0 < 2 ^ (x.size - 1) := Nat.pos_pow_of_pos _ (by omega)
    have hlo : 1 ≤ x / 2 ^ (x.size - 1) := (Nat.le_div_iff_mul_le hp).mpr (by omega)
    have hhi : x / 2 ^ (x.size - 1) < 2 := (Nat.div_lt_iff_lt_mul hp).mpr (by omega)
    omega
  rw [hdiv]
  rfl

theorem next_power_of_2_eq (n : Nat) (h1 : 1 ≤ n) (h2 : n ≤ 2 ^ 31) :
    next_power_of_2 n = 2 ^ (n - 1).size := by
  have hpow31 : (2:Nat) ^ 31 = 2147483648 := by norm_num
  set m := n - 1 with hm
  have hmlt : m < 2 ^ 31 := by omega
  by_cases h0 : m = 0
  · have hn1 : n = 1 := by omega
    subst hn1
    rw [hm, show (1:Nat) - 1 = 0 from rfl, Nat.size_zero]
    decide
  · have hm0 : 0 < m := Nat.pos_of_ne_zero h0
    set s := m.size with hsdef
    set t := s - 1 with htdef
    have hhigh : ∀ i, s ≤ i → m.testBit i = false := fun i hi =>
      Nat.testBit_lt_two_pow (lt_of_lt_of_le (Nat.lt_size_self m) (Nat.pow_le_pow_right (by omega) hi))
    have hts : s ≤ 31 := Nat.size_le.mpr hmlt
    have hspos : 0 < s := Nat.size_pos.mpr hm0
    set M1 := m ||| (m >>> 1) with hM1
    set M2 := M1 ||| (M1 >>> 2) with hM2
    set M3 := M2 ||| (M2 >>> 4) with hM3
    set M4 := M3 ||| (M3 >>> 8) with hM4
    set M5 := M4 ||| (M4 >>> 16) with hM5
    have f0 : ∀ j, j ≤ t → t - j < 1 → m.testBit j = true := by
      intro j hj hlt
      have hjt : j = t := by omega
      rw [hjt, htdef, hsdef]
      exact testBit_size_pred m hm0
    have f1 : ∀ j, j ≤ t → t - j < 2 → M1.testBit j = true := fun j hj hlt =>
      or_shift_fill m t 1 f0 j hj (by omega)
    have f2 : ∀ j, j ≤ t → t - j < 4 → M2.testBit j = true := fun j hj hlt =>
      or_shift_fill M1 t 2 f1 j hj (by omega)
    have f3 : ∀ j, j ≤ t → t - j < 8 → M3.testBit j = true := fun j hj hlt =>
      or_shift_fill M2 t 4 f2 j hj (by omega)
    have f4 : ∀ j, j ≤ t → t - j < 16 → M4.testBit j = true := fun j hj hlt =>
      or_shift_fill M3 t 8 f3 j hj (by omega)
    have f5 : ∀ j, j ≤ t → t - j < 32 → M5.testBit j = true := fun j hj hlt =>
      or_shift_fill M4 t 16 f4 j hj (by omega)
    have g1 : ∀ i, s ≤ i → M1.testBit i = false := fun i hi =>
      or_shift_high_false m 1 s hhigh i hi
    have g2 : ∀ i, s ≤ i → M2.testBit i = false := fun i hi =>
      or_shift_high_false M1 2 s g1 i hi
    have g3 : ∀ i, s ≤ i → M3.testBit i = false := fun i hi =>
      or_shift_high_false M2 4 s g2 i hi
    have g4 : ∀ i, s ≤ i → M4.testBit i = false := fun i hi =>
      or_shift_high_false M3 8 s g3 i hi
    have g5 : ∀ i, s ≤ i → M5.testBit i = false := fun i hi =>
      or_shift_high_false M4 16 s g4 i hi
    have hM5eq : M5 = 2 ^ s - 1 := by
      apply Nat.eq_of_testBit_eq
      intro i
      rw [Nat.testBit_two_pow_sub_one]
      rcases lt_or_ge i s with hi | hi
      · rw [f5 i (by omega) (by omega)]
        simp [hi]
      · rw [g5 i hi]
        simp
        omega
    have hnp : next_power_of_2 n = M5 + 1 := rfl
    have hone : 1 ≤ 2 ^ s := Nat.one_le_two_pow
    rw [hnp, hM5eq]
    omega

/-- Claim C10: for 1 ≤ n ≤ 2^31, the tutorial's `next_power_of_2`
returns the least power of two that is ≥ n; in particular it is the
identity exactly on powers of two, so the kernel block size equals the
column count exactly when that count is a power of two. -/
theorem next_power_of_2_least (n : Nat) (h1 : 1 ≤ n) (h2 : n ≤ 2 ^ 31) :
    (∃ k, next_power_of_2 n = 2 ^ k) ∧
    n ≤ next_power_of_2 n ∧
    (∀ m k, m = 2 ^ k → n ≤ m → next_power_of_2 n ≤ m) ∧
    (next_power_of_2 n = n ↔ ∃ k, n = 2 ^ k) := by
  have he := next_power_of_2_eq n h1 h2
  refine ⟨⟨(n - 1).size, he⟩, ?_, ?_, ?_⟩
  · rw [he]
    have := Nat.lt_size_self (n - 1)
    omega
  · intro m k hmk hnm
    rw [he, hmk]
    exact Nat.pow_le_pow_right (by omega) (Nat.size_le.mpr (by omega))
  · constructor
    · intro hEq
      exact ⟨(n - 1).size, by rw [← he]; exact hEq.symm⟩
    · rintro ⟨k, hk⟩
      rw [he, hk]
      congr 1
      rcases Nat.eq_zero_or_pos k with hk0 | hkpos
      · subst hk0
        norm_num [Nat.size_zero]
      · have hp : (2:Nat) ^ k = 2 * 2 ^ (k - 1) := by
          rw [← pow_succ']
          congr 1
          omega
        have hub : (2 ^ k - 1).size ≤ k := Nat.size_le.mpr (by
          have : 0 < (2:Nat) ^ k := Nat.pos_pow_of_pos _ (by omega)
          omega)
        have hone : 1 ≤ (2:Nat) ^ (k - 1) := Nat.one_le_two_pow
        have hlb : k - 1 < (2 ^ k - 1).size := Nat.lt_size.mpr (by omega)
        omega

/-- Witness for C10 at n = 5: the result 8 is the least power of two at
least 5, and 5 is not a power of two. -/
theorem next_power_of_2_least_witness :
    (∃ k, next_power_of_2 5 = 2 ^ k) ∧
    5 ≤ next_power_of_2 5 ∧
    (∀ m k, m = 2 ^ k → 5 ≤ m → next_power_of_2 5 ≤ m) ∧
    (next_power_of_2 5 = 5 ↔ ∃ k, (5:Nat) = 2 ^ k) :=
  next_power_of_2_least 5 (by decide) (by decide)
